import Mathlib

/-!
Shallow embedding of `filter-intel-xml.py`, a single-pass script that parses
an intrinsics XML document, filters top-level entries by an optional
technology tag, and prints one block per retained entry.

Modelling conventions:
* An XML element's attribute dictionary is modelled by one `Option String`
  field per attribute the script accesses; `attrib["k"]` becomes a `match`
  that raises (returns `Except.error "k"`, standing for Python's `KeyError`)
  on `none`, and `attrib.get("k", "\b")` becomes `Option.getD "\x08"`.
* The parsed tree (`xml.parse` output) is a `List PEntry` in document order;
  `findall` preserves document order, so parameters and instructions are the
  lists stored in the entry.
* Each `print(...)` call contributes one output line; `print(s, end=': ')`
  glues the next print onto the same line with `": "` in between, so the
  one-instruction case produces a single combined line.
* Python string slicing `s[:-2]` is `String.dropRight s 2` (both count code
  points and return `""` when the string is shorter than 2).
* `str.lower()` is `String.toLower` (the attribute values involved are ASCII).
-/

/-- The four ANSI color strings the script assembles (CBLUE, CGREEN, CEND,
CBEIGE); when `COLORS` is false they are all empty. -/
structure Colors where
  cblue : String
  cgreen : String
  cend : String
  cbeige : String
deriving DecidableEq

/-- `SKIPZERO = True` at the top of the script. -/
def SKIPZERO : Bool := true

/-- `COLORS = True` at the top of the script. -/
def COLORS : Bool := true

/-- The color strings as the script initialises them: empty, then overwritten
with ANSI escapes when `COLORS` is set ('\033' and '\33' are both ESC). -/
def codeColors : Colors :=
  if COLORS then ⟨"\x1b[94m", "\x1b[92m", "\x1b[0m", "\x1b[36m"⟩
  else ⟨"", "", "", ""⟩

/-- A `<parameter>` child node: attributes `type` and `varname`, either of
which may be absent from the attribute dictionary. -/
structure PParam where
  type : Option String
  varname : Option String
deriving DecidableEq

/-- An `<instruction>` child node: attributes `name` and `form`, either of
which may be absent from the attribute dictionary. -/
structure PInstr where
  name : Option String
  form : Option String
deriving DecidableEq

/-- A top-level entry node (an intrinsic): attributes `name` and `tech`
(possibly absent from the dictionary), plus the ordered `parameter` and
`instruction` children returned by `findall`. -/
structure PEntry where
  name : Option String
  tech : Option String
  params : List PParam
  instrs : List PInstr
deriving DecidableEq

/-- Left-to-right effectful map over `Except`, mirroring a Python `for` loop
that can raise `KeyError` partway through. -/
def mapE (f : α → Except String β) : List α → Except String (List β)
  | [] => .ok []
  | a :: as =>
    match f a with
    | .error k => .error k
    | .ok b =>
      match mapE f as with
      | .error k => .error k
      | .ok bs => .ok (b :: bs)

/-- The filter test `if len(tech) != 0 and child.attrib["tech"] != tech:
continue`, returning whether the entry is kept.  Python's `and`
short-circuits, so `attrib["tech"]` is only read when the tag is non-empty. -/
def keep (tag : String) (e : PEntry) : Except String Bool :=
  if tag.length ≠ 0 then
    match e.tech with
    | none => .error "tech"
    | some t => .ok (t == tag)
  else .ok true

/-- One iteration of the parameter loop: reads `arg.attrib["type"]`
(KeyError when absent), defaults `varname` to the backspace placeholder, and
appends `f"{CBEIGE}{typ}{CBLUE} {name}, "`. -/
def paramFrag (C : Colors) (p : PParam) : Except String String :=
  match p.type with
  | none => .error "type"
  | some typ =>
    .ok (C.cbeige ++ typ ++ C.cblue ++ " " ++ p.varname.getD "\x08" ++ ", ")

/-- Builds `intrinsic_name`: `child.attrib["name"]`, then `'('`, then the
parameter fragments in document order, then `intrinsic_name[:-2] + ')'`. -/
def buildSignature (C : Colors) (e : PEntry) : Except String String :=
  match e.name with
  | none => .error "name"
  | some nm =>
    match mapE (paramFrag C) e.params with
    | .error k => .error k
    | .ok frags => .ok ((nm ++ "(" ++ String.join frags).dropRight 2 ++ ")")

/-- One iteration of the instruction loop:
`print(f"{CGREEN}{attribs['name'].lower()}{CEND} {attribs.get('form', chr(8))}")`. -/
def instrLine (C : Colors) (i : PInstr) : Except String String :=
  match i.name with
  | none => .error "name"
  | some n => .ok (C.cgreen ++ n.toLower ++ C.cend ++ " " ++ i.form.getD "\x08")

/-- The body of the main loop for one entry, producing the list of output
lines this entry contributes (empty when `continue` fires).  The order of
attribute accesses matches the script: tech filter, then the signature
(name and parameter types) — built *before* the zero-instruction skip test —
then the header print and the instruction lines. -/
def processEntry (C : Colors) (skip : Bool) (tag : String) (e : PEntry) :
    Except String (List String) :=
  match keep tag e with
  | .error k => .error k
  | .ok false => .ok []
  | .ok true =>
    match buildSignature C e with
    | .error k => .error k
    | .ok sig =>
      if skip && e.instrs.isEmpty then .ok []
      else
        match mapE (instrLine C) e.instrs with
        | .error k => .error k
        | .ok ls =>
          if e.instrs.length == 1 then
            .ok [C.cblue ++ sig ++ C.cend ++ ": " ++ ls.headD ""]
          else
            .ok ((C.cblue ++ sig ++ C.cend) :: ls)

/-- The main loop over `tree.getroot()`: output lines of every entry in
document order; a `KeyError` aborts the run. -/
def run (C : Colors) (skip : Bool) (tag : String) :
    List PEntry → Except String (List String)
  | [] => .ok []
  | e :: es =>
    match processEntry C skip tag e with
    | .error k => .error k
    | .ok ls =>
      match run C skip tag es with
      | .error k => .error k
      | .ok rest => .ok (ls ++ rest)

instance [DecidableEq ε] [DecidableEq α] : DecidableEq (Except ε α) := fun
  | .error a, .error b =>
    if h : a = b then .isTrue (h ▸ rfl)
    else .isFalse (fun hh => h (by cases hh; rfl))
  | .error _, .ok _ => .isFalse (fun hh => Except.noConfusion hh)
  | .ok _, .error _ => .isFalse (fun hh => Except.noConfusion hh)
  | .ok a, .ok b =>
    if h : a = b then .isTrue (h ▸ rfl)
    else .isFalse (fun hh => h (by cases hh; rfl))

/-- Observable result of a whole invocation: either the usage error path
(message printed to stdout and the exit status), or the loop's output over
the parsed document. -/
inductive ProgResult where
  | usageError : String → Nat → ProgResult
  | output : Except String (List String) → ProgResult
deriving DecidableEq

/-- The whole script on an argument vector (`argv` includes the script name,
like `sys.argv`).  `doc` stands for the tree parsed from the file named by
`argv[1]`; when the argument check fails the script exits before `xml.parse`,
so the result does not consult `doc`.  `tech` is set only when
`len(sys.argv) == 3`. -/
def runProgram (C : Colors) (skip : Bool) (argv : List String)
    (doc : List PEntry) : ProgResult :=
  if 2 ≤ argv.length then
    .output (run C skip (if argv.length == 3 then argv.getD 2 "" else "") doc)
  else
    .usageError "Not enough arguments" 1

/-- Decidable version of "this entry contributes output": it passes the tech
filter and is not removed by the skip rule.  Coincides with the script's
tests on entries whose `tech` attribute is present (see `processEntry_spec`). -/
def emitsB (tag : String) (skip : Bool) (e : PEntry) : Bool :=
  (tag == "" || e.tech == some tag) && !(skip && e.instrs.isEmpty)

/-- The block of lines an entry contributes, as a total function (defaulting
to no lines on a `KeyError`). -/
def blockOf (C : Colors) (skip : Bool) (tag : String) (e : PEntry) :
    List String :=
  match processEntry C skip tag e with
  | .ok ls => ls
  | .error _ => []

/-- The input-schema obligations of §3 of the spec: attributes `name` and
`tech` on entries, `type` on parameters and `name` on instructions are
required; `varname` and `form` stay optional. -/
def entryWF (e : PEntry) : Prop :=
  e.name.isSome ∧ e.tech.isSome ∧
    (∀ p ∈ e.params, p.type.isSome) ∧ (∀ i ∈ e.instrs, i.name.isSome)

instance (e : PEntry) : Decidable (entryWF e) := by
  unfold entryWF; infer_instance

/-- A zero-parameter intrinsic as it appears in the real document. -/
def pauseEntry : PEntry :=
  ⟨some "_mm_pause", some "SSE2", [], [⟨some "PAUSE", none⟩]⟩

/-- A well-formed XML node that lacks the `name` attribute. -/
def badEntry : PEntry := ⟨none, none, [], [⟨some "NOP", none⟩]⟩

/-- An entry matching tag `"SSE2"` but with zero instruction children. -/
def zeroInstrSSE2 : PEntry :=
  ⟨some "_mm_castps_si128", some "SSE2", [⟨some "__m128", some "a"⟩], []⟩

/-- The schema-conforming entry of spec Example 1. -/
def addEntry : PEntry :=
  ⟨some "_mm_add_epi32", some "SSE2",
    [⟨some "__m128i", some "a"⟩, ⟨some "__m128i", some "b"⟩],
    [⟨some "PADDD", some "xmm, xmm"⟩]⟩

/-- An entry with two instruction children. -/
def twoInstrEntry : PEntry :=
  ⟨some "_mm_foo", some "SSE2", [⟨some "int", some "a"⟩],
    [⟨some "FOO", some "xmm"⟩, ⟨some "BAR", none⟩]⟩

theorem string_length_zero_iff (s : String) : s.length = 0 ↔ s = "" := by
  constructor
  · intro h
    cases s with
    | mk d =>
      simp only [String.length] at h
      rw [List.length_eq_zero] at h
      subst h
      rfl
  · intro h
    subst h
    rfl

theorem mapE_ok_length {f : α → Except String β} :
    ∀ {l : List α} {bs : List β}, mapE f l = .ok bs → bs.length = l.length := by
  intro l
  induction l with
  | nil =>
    intro bs h
    simp only [mapE] at h
    cases h
    rfl
  | cons a as ih =>
    intro bs h
    simp only [mapE] at h
    cases hfa : f a with
    | error k => rw [hfa] at h; cases h
    | ok b =>
      rw [hfa] at h
      cases hrest : mapE f as with
      | error k => rw [hrest] at h; cases h
      | ok bs2 =>
        rw [hrest] at h
        cases h
        simp [ih hrest]

theorem mapE_ok_get {f : α → Except String β} :
    ∀ {l : List α} {bs : List β}, mapE f l = .ok bs →
      ∀ (k : ℕ) (hk : k < l.length) (hk' : k < bs.length),
        f (l.get ⟨k, hk⟩) = .ok (bs.get ⟨k, hk'⟩) := by
  intro l
  induction l with
  | nil =>
    intro bs _ k hk
    exact absurd hk (by simp)
  | cons a as ih =>
    intro bs h k hk hk'
    simp only [mapE] at h
    cases hfa : f a with
    | error k0 => rw [hfa] at h; cases h
    | ok b =>
      rw [hfa] at h
      cases hrest : mapE f as with
      | error k0 => rw [hrest] at h; cases h
      | ok bs2 =>
        rw [hrest] at h
        cases h
        cases k with
        | zero => exact hfa
        | succ n =>
          exact ih hrest n (Nat.lt_of_succ_lt_succ hk) (Nat.lt_of_succ_lt_succ hk')

theorem mapE_total {f : α → Except String β} :
    ∀ {l : List α}, (∀ a ∈ l, ∃ b, f a = .ok b) →
      ∃ bs, mapE f l = .ok bs := by
  intro l
  induction l with
  | nil => intro _; exact ⟨[], rfl⟩
  | cons a as ih =>
    intro h
    obtain ⟨b, hb⟩ := h a (List.mem_cons_self a as)
    obtain ⟨bs, hbs⟩ := ih (fun x hx => h x (List.mem_cons_of_mem a hx))
    exact ⟨b :: bs, by simp only [mapE, hb, hbs]⟩

theorem keep_true_of (tag : String) (e : PEntry)
    (h : tag = "" ∨ e.tech = some tag) : keep tag e = .ok true := by
  rcases h with h | h
  · subst h
    simp [keep]
  · unfold keep
    by_cases hl : tag.length ≠ 0
    · simp only [hl, if_true, h]
      simp
    · simp [hl]

theorem buildSignature_total (C : Colors) (e : PEntry)
    (h1 : e.name.isSome) (h2 : ∀ p ∈ e.params, p.type.isSome) :
    ∃ s, buildSignature C e = .ok s := by
  obtain ⟨nm, hnm⟩ := Option.isSome_iff_exists.mp h1
  have hfrags : ∀ p ∈ e.params, ∃ s, paramFrag C p = .ok s := by
    intro p hp
    obtain ⟨t, ht⟩ := Option.isSome_iff_exists.mp (h2 p hp)
    refine ⟨C.cbeige ++ t ++ C.cblue ++ " " ++ p.varname.getD "\x08" ++ ", ", ?_⟩
    simp only [paramFrag, ht]
  obtain ⟨frags, hfr⟩ := mapE_total hfrags
  refine ⟨(nm ++ "(" ++ String.join frags).dropRight 2 ++ ")", ?_⟩
  simp only [buildSignature, hnm, hfr]

theorem instrLines_total (C : Colors) (l : List PInstr)
    (h : ∀ i ∈ l, i.name.isSome) : ∃ ls, mapE (instrLine C) l = .ok ls := by
  apply mapE_total
  intro i hi
  obtain ⟨n, hn⟩ := Option.isSome_iff_exists.mp (h i hi)
  refine ⟨C.cgreen ++ n.toLower ++ C.cend ++ " " ++ i.form.getD "\x08", ?_⟩
  simp only [instrLine, hn]

theorem processEntry_ok_spec (C : Colors) (skip : Bool) (tag : String)
    (e : PEntry) (hwf : entryWF e) :
    ∃ ls, processEntry C skip tag e = .ok ls ∧
      (ls = [] ↔ emitsB tag skip e = false) := by
  obtain ⟨h1, h2, h3, h4⟩ := hwf
  obtain ⟨t, ht⟩ := Option.isSome_iff_exists.mp h2
  by_cases heq : tag = "" ∨ e.tech = some tag
  · have hkeep : keep tag e = .ok true := keep_true_of tag e heq
    have hA : (tag == "" || e.tech == some tag) = true := by
      rcases heq with h | h
      · simp [h]
      · simp [h]
    obtain ⟨sig, hsig⟩ := buildSignature_total C e h1 h3
    simp only [processEntry, hkeep, hsig]
    by_cases hsk : (skip && e.instrs.isEmpty) = true
    · rw [if_pos hsk]
      refine ⟨[], rfl, ?_⟩
      simp [emitsB, hsk]
    · have hsk' : (skip && e.instrs.isEmpty) = false :=
        Bool.eq_false_iff.mpr hsk
      rw [if_neg hsk]
      obtain ⟨ls, hls⟩ := instrLines_total C e.instrs h4
      simp only [hls]
      by_cases h1i : (e.instrs.length == 1) = true
      · rw [if_pos h1i]
        refine ⟨_, rfl, ?_⟩
        simp [emitsB, hA, hsk']
      · rw [if_neg h1i]
        refine ⟨_, rfl, ?_⟩
        simp [emitsB, hA, hsk']
  · push_neg at heq
    obtain ⟨htag, htech⟩ := heq
    have hlen : tag.length ≠ 0 := fun hl =>
      htag ((string_length_zero_iff tag).mp hl)
    have hne : t ≠ tag := fun hh => htech (by rw [← hh]; exact ht)
    have hkeep : keep tag e = .ok false := by
      unfold keep
      rw [if_pos hlen, ht]
      simp [hne]
    simp only [processEntry, hkeep]
    refine ⟨[], rfl, ?_⟩
    have hA : (tag == "" || e.tech == some tag) = false := by
      rw [ht]
      simp [htag, hne]
    simp [emitsB, hA]

theorem processEntry_total (C : Colors) (skip : Bool) (tag : String)
    (e : PEntry) (hwf : entryWF e) :
    ∃ ls, processEntry C skip tag e = .ok ls := by
  obtain ⟨ls, hls, _⟩ := processEntry_ok_spec C skip tag e hwf
  exact ⟨ls, hls⟩

theorem run_eq_join (C : Colors) (skip : Bool) (tag : String) :
    ∀ doc : List PEntry, (∀ e ∈ doc, entryWF e) →
      run C skip tag doc =
        .ok (((doc.filter (emitsB tag skip)).map (blockOf C skip tag)).flatten) := by
  intro doc
  induction doc with
  | nil => intro _; rfl
  | cons e es ih =>
    intro h
    obtain ⟨ls, hls, hiff⟩ :=
      processEntry_ok_spec C skip tag e (h e (List.mem_cons_self e es))
    have hrest := ih (fun x hx => h x (List.mem_cons_of_mem e hx))
    simp only [run, hls, hrest]
    by_cases hem : emitsB tag skip e = true
    · rw [List.filter_cons_of_pos hem]
      have hblock : blockOf C skip tag e = ls := by
        unfold blockOf
        rw [hls]
      simp [hblock]
    · have hem' : emitsB tag skip e = false := Bool.eq_false_iff.mpr hem
      have hnil : ls = [] := hiff.mpr hem'
      rw [List.filter_cons_of_neg (by simp [hem'])]
      simp [hnil]

theorem emitsB_eq_true_iff (tag : String) (skip : Bool) (e : PEntry) :
    emitsB tag skip e = true ↔
      ((tag = "" ∨ e.tech = some tag) ∧ (skip = true → e.instrs ≠ [])) := by
  unfold emitsB
  cases skip <;> cases hi : e.instrs <;> simp [List.isEmpty]

/-- Claim C1: the spec says a zero-parameter entry's signature is `name()`.
The script instead computes `(name + "(")[:-2] + ")"`, which removes the
opening parenthesis *and the final character of the name* because the
trailing-separator slice `[:-2]` fires even when no `", "` separator was ever
appended.  At the real zero-parameter intrinsic `_mm_pause` the signature
comes out as `"_mm_paus)"`, not `"_mm_pause()"`. -/
theorem c1_zero_param_signature_bug :
    pauseEntry.params = [] ∧
      buildSignature codeColors pauseEntry = .ok "_mm_paus)" ∧
      "_mm_paus)" ≠ "_mm_pause" ++ "()" := by
  refine ⟨rfl, rfl, by decide⟩

/-- Claim C2, counterexample: a well-formed document whose single entry node
lacks the `name` attribute parses fine, yet the formatting stage raises
`KeyError("name")` — so filtering/formatting *can* fail after a successful
parse, contradicting the claim that every attribute access succeeds or
degrades to the placeholder. -/
theorem c2_formatting_can_fail :
    run codeColors SKIPZERO "" [badEntry] = .error "name" := by
  rfl

/-- Claim C2 (amended): for documents that conform to the schema of §3 —
every entry carries `name` and `tech`, every parameter carries `type`, every
instruction carries `name` — the filtering and formatting stages never fail;
only the optional attributes (`varname`, `form`) are defaulted to the
placeholder. -/
theorem c2_wellformed_never_fails (C : Colors) (skip : Bool) (tag : String)
    (doc : List PEntry) (hwf : ∀ e ∈ doc, entryWF e) :
    ∃ out, run C skip tag doc = .ok out :=
  ⟨_, run_eq_join C skip tag doc hwf⟩

theorem c2_wellformed_never_fails_witness :
    (∀ e ∈ [addEntry, pauseEntry], entryWF e) ∧
      ∃ out, run codeColors SKIPZERO "" [addEntry, pauseEntry] = .ok out :=
  ⟨by decide,
    c2_wellformed_never_fails codeColors SKIPZERO "" [addEntry, pauseEntry]
      (by decide)⟩

/-- Claim C3, counterexample: with the script's configuration
(`SKIPZERO = True`) and the non-empty tag `"SSE2"`, an entry whose `tech`
attribute equals the tag but which has zero instruction children produces no
output at all — refuting "an entry appears in the output if and only if its
`tech` attribute equals the tag". -/
theorem c3_matching_entry_produces_no_output :
    zeroInstrSSE2.tech = some "SSE2" ∧ ("SSE2" : String) ≠ "" ∧
      run codeColors SKIPZERO "SSE2" [zeroInstrSSE2] = .ok [] := by
  refine ⟨rfl, by decide, by rfl⟩

/-- Claim C3 (amended): for a schema-conforming entry, the entry contributes
output if and only if it passes the tech filter (tag empty, or `tech` equal to
the tag exactly, case-sensitively) *and* it is not removed by the skip rule
(when skipping is enabled it must have at least one instruction); the skip
rule applies in the filtered case too, not only when no tag is supplied. -/
theorem c3_filter_characterization (C : Colors) (skip : Bool) (tag : String)
    (e : PEntry) (hwf : entryWF e) :
    ∃ ls, processEntry C skip tag e = .ok ls ∧
      (ls ≠ [] ↔ ((tag = "" ∨ e.tech = some tag) ∧
        (skip = true → e.instrs ≠ []))) := by
  obtain ⟨ls, hls, hiff⟩ := processEntry_ok_spec C skip tag e hwf
  refine ⟨ls, hls, ?_⟩
  rw [← emitsB_eq_true_iff tag skip e]
  constructor
  · intro hne
    by_contra hB
    exact hne (hiff.mpr (Bool.eq_false_iff.mpr hB))
  · intro hB hnil
    have hfalse := hiff.mp hnil
    rw [hB] at hfalse
    cases hfalse

theorem c3_filter_characterization_witness :
    entryWF addEntry ∧
      ∃ ls, processEntry codeColors SKIPZERO "SSE2" addEntry = .ok ls ∧
        (ls ≠ [] ↔ (("SSE2" = "" ∨ addEntry.tech = some "SSE2") ∧
          (SKIPZERO = true → addEntry.instrs ≠ []))) :=
  ⟨by decide,
    c3_filter_characterization codeColors SKIPZERO "SSE2" addEntry (by decide)⟩

/-- Claim C4: with the skip rule enabled, a schema-conforming entry with zero
instruction children contributes no output lines at all (whether or not it
passes the tech filter); with the skip rule disabled, such an entry, when
retained by the filter, contributes exactly one line, namely its (colored)
signature and nothing else. -/
theorem c4_skip_rule (C : Colors) (tag : String) (e : PEntry)
    (hwf : entryWF e) (hzero : e.instrs = []) :
    processEntry C true tag e = .ok [] ∧
      ((tag = "" ∨ e.tech = some tag) →
        ∃ sig, buildSignature C e = .ok sig ∧
          processEntry C false tag e = .ok [C.cblue ++ sig ++ C.cend]) := by
  obtain ⟨h1, h2, h3, h4⟩ := hwf
  constructor
  · obtain ⟨ls, hls, hiff⟩ :=
      processEntry_ok_spec C true tag e ⟨h1, h2, h3, h4⟩
    have hem : emitsB tag true e = false := by simp [emitsB, hzero]
    rw [hiff.mpr hem] at hls
    exact hls
  · intro hret
    have hkeep := keep_true_of tag e hret
    obtain ⟨sig, hsig⟩ := buildSignature_total C e h1 h3
    refine ⟨sig, hsig, ?_⟩
    simp only [processEntry, hkeep, hsig, hzero]
    rfl

theorem c4_skip_rule_witness :
    entryWF zeroInstrSSE2 ∧ zeroInstrSSE2.instrs = [] ∧
      (processEntry codeColors true "SSE2" zeroInstrSSE2 = .ok [] ∧
        (("SSE2" = "" ∨ zeroInstrSSE2.tech = some "SSE2") →
          ∃ sig, buildSignature codeColors zeroInstrSSE2 = .ok sig ∧
            processEntry codeColors false "SSE2" zeroInstrSSE2 =
              .ok [codeColors.cblue ++ sig ++ codeColors.cend])) :=
  ⟨by decide, rfl, c4_skip_rule codeColors "SSE2" zeroInstrSSE2 (by decide) rfl⟩

/-- Claim C5: a retained schema-conforming entry with exactly one instruction
prints the colored signature and the single instruction line on one combined
output line separated by `": "`; with two or more instructions it prints the
colored signature on its own line followed by each instruction line, in
order, on its own line. -/
theorem c5_display_modes (C : Colors) (skip : Bool) (tag : String)
    (e : PEntry) (hwf : entryWF e) (hret : tag = "" ∨ e.tech = some tag) :
    (∀ i, e.instrs = [i] →
      ∃ sig l, buildSignature C e = .ok sig ∧ instrLine C i = .ok l ∧
        processEntry C skip tag e =
          .ok [C.cblue ++ sig ++ C.cend ++ ": " ++ l]) ∧
    (2 ≤ e.instrs.length →
      ∃ sig ls, buildSignature C e = .ok sig ∧
        mapE (instrLine C) e.instrs = .ok ls ∧
        processEntry C skip tag e = .ok ((C.cblue ++ sig ++ C.cend) :: ls)) := by
  obtain ⟨h1, h2, h3, h4⟩ := hwf
  have hkeep := keep_true_of tag e hret
  obtain ⟨sig, hsig⟩ := buildSignature_total C e h1 h3
  constructor
  · intro i hi
    have hin : i.name.isSome :=
      h4 i (by rw [hi]; exact List.mem_cons_self i [])
    obtain ⟨n, hn⟩ := Option.isSome_iff_exists.mp hin
    have hil : instrLine C i =
        .ok (C.cgreen ++ n.toLower ++ C.cend ++ " " ++ i.form.getD "\x08") := by
      simp only [instrLine, hn]
    refine ⟨sig, _, hsig, hil, ?_⟩
    simp [processEntry, hkeep, hsig, hi, mapE, hil]
  · intro h2i
    have hne : e.instrs ≠ [] := by
      intro hh
      rw [hh] at h2i
      simp at h2i
    obtain ⟨ls, hls⟩ := instrLines_total C e.instrs h4
    refine ⟨sig, ls, hsig, hls, ?_⟩
    have hie : e.instrs.isEmpty = false := by
      cases hi : e.instrs with
      | nil => exact absurd hi hne
      | cons a l => rfl
    have hlen : (e.instrs.length == 1) = false := by
      have hne1 : e.instrs.length ≠ 1 := by omega
      simp [hne1]
    simp [processEntry, hkeep, hsig, hie, hls, hlen]

theorem c5_display_modes_witness :
    entryWF addEntry ∧ ("" = "" ∨ addEntry.tech = some "") ∧
      ((∀ i, addEntry.instrs = [i] →
        ∃ sig l, buildSignature codeColors addEntry = .ok sig ∧
          instrLine codeColors i = .ok l ∧
          processEntry codeColors SKIPZERO "" addEntry =
            .ok [codeColors.cblue ++ sig ++ codeColors.cend ++ ": " ++ l]) ∧
      (2 ≤ addEntry.instrs.length →
        ∃ sig ls, buildSignature codeColors addEntry = .ok sig ∧
          mapE (instrLine codeColors) addEntry.instrs = .ok ls ∧
          processEntry codeColors SKIPZERO "" addEntry =
            .ok ((codeColors.cblue ++ sig ++ codeColors.cend) :: ls))) :=
  ⟨by decide, Or.inl rfl,
    c5_display_modes codeColors SKIPZERO "" addEntry (by decide) (Or.inl rfl)⟩

/-- Claim C6: order preservation.  (i) On a schema-conforming document the
whole run is the concatenation, in document order, of the blocks of exactly
the entries that pass the filter and skip tests; (ii) the retained entries
form a sublist of the document, so their relative output order equals their
relative input order; (iii) and (iv) the rendered parameter fragments and
instruction lines correspond index-for-index to the parameter and instruction
children, so both keep document order. -/
theorem c6_order_preservation (C : Colors) (skip : Bool) (tag : String)
    (doc : List PEntry) (hwf : ∀ e ∈ doc, entryWF e) :
    run C skip tag doc =
      .ok (((doc.filter (emitsB tag skip)).map (blockOf C skip tag)).flatten) ∧
    (doc.filter (emitsB tag skip)).Sublist doc ∧
    (∀ (ps : List PParam) (fs : List String),
      mapE (paramFrag C) ps = .ok fs →
        fs.length = ps.length ∧
          ∀ (k : ℕ) (hk : k < ps.length) (hk' : k < fs.length),
            paramFrag C (ps.get ⟨k, hk⟩) = .ok (fs.get ⟨k, hk'⟩)) ∧
    (∀ (l : List PInstr) (ls : List String),
      mapE (instrLine C) l = .ok ls →
        ls.length = l.length ∧
          ∀ (k : ℕ) (hk : k < l.length) (hk' : k < ls.length),
            instrLine C (l.get ⟨k, hk⟩) = .ok (ls.get ⟨k, hk'⟩)) := by
  refine ⟨run_eq_join C skip tag doc hwf, List.filter_sublist doc, ?_, ?_⟩
  · intro ps fs h
    exact ⟨mapE_ok_length h, fun k hk hk' => mapE_ok_get h k hk hk'⟩
  · intro l ls h
    exact ⟨mapE_ok_length h, fun k hk hk' => mapE_ok_get h k hk hk'⟩

theorem c6_order_preservation_witness :
    (∀ e ∈ [addEntry, zeroInstrSSE2, twoInstrEntry], entryWF e) ∧
      (run codeColors SKIPZERO "SSE2" [addEntry, zeroInstrSSE2, twoInstrEntry] =
        .ok ((([addEntry, zeroInstrSSE2, twoInstrEntry].filter
            (emitsB "SSE2" SKIPZERO)).map
              (blockOf codeColors SKIPZERO "SSE2")).flatten) ∧
      ([addEntry, zeroInstrSSE2, twoInstrEntry].filter
          (emitsB "SSE2" SKIPZERO)).Sublist
        [addEntry, zeroInstrSSE2, twoInstrEntry] ∧
      (∀ (ps : List PParam) (fs : List String),
        mapE (paramFrag codeColors) ps = .ok fs →
          fs.length = ps.length ∧
            ∀ (k : ℕ) (hk : k < ps.length) (hk' : k < fs.length),
              paramFrag codeColors (ps.get ⟨k, hk⟩) = .ok (fs.get ⟨k, hk'⟩)) ∧
      (∀ (l : List PInstr) (ls : List String),
        mapE (instrLine codeColors) l = .ok ls →
          ls.length = l.length ∧
            ∀ (k : ℕ) (hk : k < l.length) (hk' : k < ls.length),
              instrLine codeColors (l.get ⟨k, hk⟩) = .ok (ls.get ⟨k, hk'⟩))) :=
  ⟨by decide,
    c6_order_preservation codeColors SKIPZERO "SSE2"
      [addEntry, zeroInstrSSE2, twoInstrEntry] (by decide)⟩

/-- Claim C7: a parameter node without `varname` and an instruction node
without `form` both render successfully, with the invisible backspace
placeholder `"\x08"` substituted for the missing value, instead of raising an
error. -/
theorem c7_placeholder_defaults (C : Colors) (t n : String) :
    paramFrag C ⟨some t, none⟩ =
        .ok (C.cbeige ++ t ++ C.cblue ++ " " ++ "\x08" ++ ", ") ∧
      instrLine C ⟨some n, none⟩ =
        .ok (C.cgreen ++ n.toLower ++ C.cend ++ " " ++ "\x08") :=
  ⟨rfl, rfl⟩

/-- Claim C8: the display line of an instruction is its `name` attribute
lowercased (wrapped in the instruction color), a space, and then the `form`
attribute, defaulted to the backspace placeholder when absent. -/
theorem c8_instruction_line (C : Colors) (n : String) (form : Option String) :
    instrLine C ⟨some n, form⟩ =
      .ok (C.cgreen ++ n.toLower ++ C.cend ++ " " ++ form.getD "\x08") :=
  rfl

/-- Claim C9: with fewer than two command-line words (no path argument after
the script name), the program prints `"Not enough arguments"` to standard
output and exits with status 1, and the result is independent of the
document — it is produced without reading any document. -/
theorem c9_usage_error (C : Colors) (skip : Bool) (argv : List String)
    (doc : List PEntry) (h : argv.length < 2) :
    runProgram C skip argv doc = .usageError "Not enough arguments" 1 ∧
      ∀ doc' : List PEntry,
        runProgram C skip argv doc' = runProgram C skip argv doc := by
  have h2 : ¬ 2 ≤ argv.length := by omega
  refine ⟨by simp [runProgram, h2], fun doc' => by simp [runProgram, h2]⟩

theorem c9_usage_error_witness :
    (["./filter-intel-xml.py"] : List String).length < 2 ∧
      (runProgram codeColors SKIPZERO ["./filter-intel-xml.py"] [addEntry] =
          .usageError "Not enough arguments" 1 ∧
        ∀ doc' : List PEntry,
          runProgram codeColors SKIPZERO ["./filter-intel-xml.py"] doc' =
            runProgram codeColors SKIPZERO ["./filter-intel-xml.py"]
              [addEntry]) :=
  ⟨by decide,
    c9_usage_error codeColors SKIPZERO ["./filter-intel-xml.py"] [addEntry]
      (by decide)⟩

/-- Claim C10: when the argument vector has four or more words (more than two
arguments after the script name, so `len(sys.argv) == 3` is false), the tech
tag stays empty and the program behaves exactly as if no filter had been
supplied. -/
theorem c10_extra_args_ignored (C : Colors) (skip : Bool) (argv : List String)
    (doc : List PEntry) (h : 4 ≤ argv.length) :
    runProgram C skip argv doc = .output (run C skip "" doc) := by
  have h2 : 2 ≤ argv.length := by omega
  have hne3 : argv.length ≠ 3 := by omega
  have h3 : (argv.length == 3) = false := by simp [hne3]
  simp [runProgram, h2, h3]

theorem c10_extra_args_ignored_witness :
    4 ≤ (["./s", "data.xml", "AVX2", "extra"] : List String).length ∧
      runProgram codeColors SKIPZERO ["./s", "data.xml", "AVX2", "extra"]
          [addEntry, zeroInstrSSE2] =
        .output (run codeColors SKIPZERO "" [addEntry, zeroInstrSSE2]) :=
  ⟨by decide,
    c10_extra_args_ignored codeColors SKIPZERO
      ["./s", "data.xml", "AVX2", "extra"] [addEntry, zeroInstrSSE2]
      (by decide)⟩
